import Mathlib

/-!
Shallow embedding of `scripts/fetch_hubspot_journeys.py` (order-pulse).

The script is a single-run batch job: load a roster CSV, look up CRM
contacts/deals over HTTP, match deals to tenants with a token index,
synthesize one journey record per tenant, sort and report.  The pure
logic the claims are about — roster filtering, the deal index and its
two-stage matcher, best-deal selection, the lifecycle merge policies,
the date helpers and the final sort — is embedded below as executable
Lean definitions, translated function by function from the source.

Python strings are modelled as `String` or as `List Char` (for the
token/index logic, where structural reasoning is needed); `str.lower`,
`str.strip` and `str.split()` are modelled character-wise, which is
faithful on the ASCII data the script handles.  Python's `None`-able
CRM properties are modelled as `Option String`, with Python truthiness
(`None` and `""` are falsy) made explicit.
-/

namespace OrderPulse

/-! ## Basic Python-string helpers (character-list level) -/

/-- Python truthiness of an optional string: `None` and `""` are falsy. -/
def pyTruthy : Option String → Bool
  | some s => s ≠ ""
  | none => false

/-- `a or b` for an optional string `a` and a string default `b`
(Python `or` returns the first truthy operand). -/
def pyOrD : Option String → String → String
  | some s, b => if s = "" then b else s
  | none, b => b

/-- Substring test: Python `pat in s` on character lists. -/
def isInf (pat s : List Char) : Bool := decide (pat <:+: s)

/-- Python `str.strip()`: drop whitespace from both ends. -/
def trimChars (l : List Char) : List Char :=
  ((l.dropWhile Char.isWhitespace).reverse.dropWhile Char.isWhitespace).reverse

/-- Python `str.lower()` (ASCII-faithful). -/
def lowerChars (l : List Char) : List Char := l.map Char.toLower

/-- Helper for `wordsOf`: accumulates the current word (reversed) while
scanning; mirrors Python `str.split()` with no argument (split on
whitespace runs, no empty words). -/
def splitWsAux : List Char → List Char → List (List Char)
  | cur, [] => if cur.isEmpty then [] else [cur.reverse]
  | cur, c :: cs =>
    if c.isWhitespace then
      if cur.isEmpty then splitWsAux [] cs else cur.reverse :: splitWsAux [] cs
    else
      splitWsAux (c :: cur) cs

/-- Python `str.split()` with no argument. -/
def wordsOf (l : List Char) : List (List Char) := splitWsAux [] l

/-! ## HTTP request construction (`hubspot_get`, module constants)

`API_TOKEN = os.environ.get("HUBSPOT_API_TOKEN", "")` is read once
at module load with an empty-string default; `hubspot_get` then builds and
sends the request unconditionally — there is no check of the token
anywhere before `urlopen`.  The request a call would send is modelled
as a value. -/

def BASE_URL : String := "https://api.hubapi.com"

/-- `API_TOKEN`: environment lookup with `""` default (`os.environ.get`). -/
def apiToken (env : String → Option String) : String :=
  (env "HUBSPOT_API_TOKEN").getD ""

structure HttpRequest where
  url : String
  authHeader : String
  deriving Repr, DecidableEq

/-- The request `hubspot_get(endpoint, params)` constructs and sends:
URL with `&`-joined query when params are present, and the header
`Authorization: Bearer <API_TOKEN>`.  No token validation occurs. -/
def hubspotGetRequest (endpoint : String) (params : List (String × String))
    (token : String) : HttpRequest :=
  { url := BASE_URL ++ endpoint ++
      (if params.isEmpty then ""
       else "?" ++ String.intercalate "&" (params.map (fun kv => kv.1 ++ "=" ++ kv.2))),
    authHeader := "Bearer " ++ token }

/-! ## Roster filtering (`load_cognito_users`)

For each CSV row the code takes `email = row["Email"].strip()` and skips
the row when any of three checks fires:
```
if email.endswith("@arda.cards") or email.endswith("@arda.com"): continue
if "test" in email.lower() and "@" in email:
    if email.split("@")[0].lower().startswith("test"):
        continue
if email.startswith("customer-success+"): continue
```
-/

/-- Python `pat in s` at `String` level. -/
def strContains (s pat : String) : Bool := decide (pat.toList <:+: s.toList)

/-- Python `email.split("@")[0]`: text before the first `@`
(the whole string when there is no `@`). -/
def beforeAt (e : String) : String := (e.splitOn "@").headD ""

/-- The exclusion test of `load_cognito_users`, translated from the
code's sequence of `continue` checks (applied to the raw CSV field,
stripped first as the code does). -/
def excludedRow (raw : String) : Bool :=
  let email := raw.trim
  if email.endsWith "@arda.cards" || email.endsWith "@arda.com" then true
  else if strContains email.toLower "test" && strContains email "@" then
    if (beforeAt email).toLower.startsWith "test" then true
    else email.startsWith "customer-success+"
  else email.startsWith "customer-success+"

/-- The fixed internal-domain list of filter rule 1. -/
def internalDomains : List String := ["arda.cards", "arda.com"]

/-- Claim rule 1: the email's domain is an exact suffix match against
the internal-domain list (an exact `@domain` suffix). -/
def ruleInternalDomain (email : String) : Bool :=
  internalDomains.any (fun d => email.endsWith ("@" ++ d))

/-- The email's local part: the text before the first `@`, defined only
when the address has an `@` at all. -/
def localPart (email : String) : Option String :=
  if strContains email "@" then some (beforeAt email) else none

/-- Claim rule 2: the local part starts with the token `test`
(case-insensitively, as the code lower-cases before the check) and the
email case-insensitively contains `test` as a substring. -/
def ruleTestAccount (email : String) : Bool :=
  match localPart email with
  | some lp => lp.toLower.startsWith "test" && strContains email.toLower "test"
  | none => false

/-- Claim rule 3: the email starts with the fixed internal
distribution-alias prefix `customer-success+`. -/
def ruleInternalAlias (email : String) : Bool :=
  email.startsWith "customer-success+"

/-! ## CRM deals, the stage map, and the deal index

A deal record carries a unique `id` and the properties the matching and
selection logic reads (`dealname`, `dealstage`); properties may be
missing/null, hence `Option String`. -/

structure Deal where
  id : String
  dealname : Option String
  dealstage : Option String
  deriving Repr, DecidableEq

/-- `STAGE_MAP`: raw CRM stage code to human label. -/
def STAGE_MAP : List (String × String) :=
  [("appointmentscheduled", "Prospect"),
   ("1499838171", "Approached"),
   ("qualifiedtobuy", "Lead"),
   ("presentationscheduled", "Demo Scheduled"),
   ("1955958510", "No-Show/Reschedule Demo"),
   ("decisionmakerboughtin", "Demo Follow-Up"),
   ("1955580622", "Budgetary quote sent"),
   ("1559099077", "Payment Link Sent"),
   ("1499827945", "Free Trial"),
   ("1731122907", "Freemium"),
   ("closedwon", "Closed Won"),
   ("contractsent", "Ping Later"),
   ("closedlost", "Closed Lost"),
   ("1499784890", "Churn"),
   ("1499784891", "Unlikely"),
   ("1499827944", "On Hold"),
   ("1718686448", "Internal+Friends and Family"),
   ("2025131723", "Interested in a pilot")]

/-- `STAGE_MAP.get(d["properties"].get("dealstage", ""), "Unknown")`:
the mapped stage label used by best-deal selection.  A missing
`dealstage` yields the Python default `""`, which is not a map key, so
the label falls back to `"Unknown"` exactly as `dict.get` does. -/
def stageLabel (d : Deal) : String :=
  (STAGE_MAP.lookup (d.dealstage.getD "")).getD "Unknown"

/-- The deal's raw name: `d.get("properties", {}).get("dealname") or ""`,
as characters. -/
def dealNameChars (d : Deal) : List Char := (d.dealname.getD "").toList

/-- The lower-cased full deal name the keyword guard tests against
(`dname = (... .get("dealname") or "").lower()`, line 303). -/
def dealNameLower (d : Deal) : List Char := lowerChars (dealNameChars d)

/-- The separator `" - "` of the deal-name company part. -/
def sepDash : List Char := [' ', '-', ' ']

/-- Start positions of all occurrences of `" - "` in a character list;
`" - " in dname` holds iff this list is nonempty, and Python's
`rsplit(" - ", 1)` splits at the last of these positions. -/
def sepOccs (dn : List Char) : List Nat :=
  (List.range (dn.length + 1)).filter (fun i => sepDash.isPrefixOf (dn.drop i))

/-- The normalized company key of a deal name (already `.strip()`ed):
`dname.rsplit(" - ", 1)[0].strip().lower() if " - " in dname else
dname.lower()`. -/
def companyPart (dn : List Char) : List Char :=
  match (sepOccs dn).getLast? with
  | some i => lowerChars (trimChars (dn.take i))
  | none => lowerChars dn

/-- The stripped deal name the index is built from
(`dname = (... .get("dealname") or "").strip()`, line 243). -/
def dealNameStripped (d : Deal) : List Char := trimChars (dealNameChars d)

/-- The deal index: token (as characters) to the list of deals appended
under it, in insertion order.  `defaultdict(list)` is modelled as a
total function returning `[]` for untouched keys; a key "is in" the
dict iff its bucket is nonempty, since the build loop only ever appends
a deal right after touching a key. -/
def Idx : Type := List Char → List Deal

/-- Append `d` to the bucket of key `k`. -/
def idxPush (idx : Idx) (k : List Char) (d : Deal) : Idx :=
  fun k' => if k' = k then idx k' ++ [d] else idx k'

/-- One iteration of the index-build loop (lines 242-249): index the
deal under its full company part, and additionally under each word of
the company part longer than 3 characters. -/
def indexStep (idx : Idx) (d : Deal) : Idx :=
  let cp := companyPart (dealNameStripped d)
  (wordsOf cp).foldl
    (fun ix w => if w.length > 3 then idxPush ix w d else ix)
    (idxPush idx cp d)

/-- Build the deal index from the fetched deal list. -/
def buildIndex (deals : List Deal) : Idx :=
  deals.foldl indexStep (fun _ => [])

/-! ## Two-stage deal matching (main, lines 287-308) -/

/-- Matching state: (`seen_ids`, `matching_deals`). -/
def MatchSt : Type := List String × List Deal

/-- The dedup-append of the matching loops: skip the deal when its id
was already seen, else record the id and append the deal. -/
def addUnseen (st : MatchSt) (d : Deal) : MatchSt :=
  if d.id ∈ st.1 then st else (d.id :: st.1, st.2 ++ [d])

/-- The relevance guard of the keyword fallback (line 305): the deal
name contains the full (lower-cased) company name, or shares some
longer-than-3-character word with it. -/
def relevanceGuard (cnl : List Char) (d : Deal) : Bool :=
  isInf cnl (dealNameLower d) ||
    (wordsOf cnl).any (fun w => decide (w.length > 3) && isInf w (dealNameLower d))

/-- One word of the keyword-fallback loop (lines 300-308): for a word
longer than 3 characters that is an index key, fold its bucket through
the guard and the dedup-append. -/
def fallbackStep (idx : Idx) (cnl : List Char) (st : MatchSt) (w : List Char) :
    MatchSt :=
  if decide (w.length > 3) && decide (idx w ≠ []) then
    (idx w).foldl (fun s d => if relevanceGuard cnl d then addUnseen s d else s) st
  else st

/-- `matching_deals` for a lower-cased company name `cnl`: the exact
bucket pass (lines 292-296; folding over the `[]` bucket of an absent
key is the code's skipped branch), then — only when nothing matched —
the keyword fallback over the company name's words. -/
def matchingDeals (idx : Idx) (cnl : List Char) : List Deal :=
  let st1 : MatchSt := (idx cnl).foldl addUnseen ([], [])
  let st2 := if st1.2.isEmpty then (wordsOf cnl).foldl (fallbackStep idx cnl) st1 else st1
  st2.2

/-- The keyword-fallback pass on its own, from the empty state it
actually runs in (it runs only when the exact pass matched nothing,
which happens exactly when it also saw nothing). -/
def fallbackDeals (idx : Idx) (cnl : List Char) : List Deal :=
  ((wordsOf cnl).foldl (fallbackStep idx cnl) ([], [])).2

/-- First-occurrence deduplication by deal id, stated the way the spec
says it ("deduplicated by id"): keep each deal and drop every later
deal carrying the same id. -/
def dedupById : List Deal → List Deal
  | [] => []
  | d :: ds => d :: dedupById (ds.filter (fun d' => d'.id ≠ d.id))
termination_by l => l.length
decreasing_by
  simp only [List.length_cons]
  exact Nat.lt_succ_of_le (List.length_filter_le _ _)

/-! ## Best-deal selection (main, lines 346-361) -/

/-- A `for`-loop with `break` that keeps the first element satisfying
the test (the shape of both selection loops). -/
def findFirst (p : Deal → Bool) : List Deal → Option Deal
  | [] => none
  | d :: ds => if p d then some d else findFirst p ds

/-- The inactive/losing stage labels of selection step 2. -/
def losingStages : List String := ["Unlikely", "Churn", "Closed Lost"]

/-- `best_deal`: first `"Closed Won"` deal; else (when any deal
matched) the first deal whose mapped stage is not a losing stage; else
`matching_deals[0]`. -/
def bestDeal (ds : List Deal) : Option Deal :=
  match findFirst (fun d => stageLabel d == "Closed Won") ds with
  | some d => some d
  | none =>
    if ds.isEmpty then none
    else
      match findFirst (fun d => !(losingStages.contains (stageLabel d))) ds with
      | some d => some d
      | none => ds.head?

/-- The selection policy as §4.4 words it: the first `"Closed Won"`
deal if one exists, else the first non-losing-stage deal, else the
first matched deal. -/
def specBestDeal (ds : List Deal) : Option Deal :=
  match ds.find? (fun d => stageLabel d == "Closed Won") with
  | some d => some d
  | none =>
    match ds.find? (fun d => !(losingStages.contains (stageLabel d))) with
    | some d => some d
    | none => ds.head?

/-! ## CRM contacts and the per-tenant merge policies (main) -/

/-- A CRM contact's properties read by the journey synthesis; each may
be missing or null (`Option`), and may be the empty string. -/
structure Contact where
  lifecyclestage : Option String
  lead_date : Option String
  opportunity_date : Option String
  customer_date : Option String
  deriving Repr, DecidableEq

/-- Lifecycle-stage merge (lines 339-344): start from `"Unknown"`, take
the first truthy `lifecyclestage` in contact iteration order and stop
(`break`). -/
def lifecycleOf : List Contact → String
  | [] => "Unknown"
  | c :: cs =>
    match c.lifecyclestage with
    | some s => if s ≠ "" then s else lifecycleOf cs
    | none => lifecycleOf cs

/-- Lifecycle-date merge (lines 374-385): start from `None`, overwrite
with each truthy value of the field in iteration order (no `break`), so
the last truthy value wins. -/
def lastTruthy (f : Contact → Option String) (cs : List Contact) : Option String :=
  cs.foldl (fun acc c => if pyTruthy (f c) then f c else acc) none

/-! ## Journey ordering (main, lines 429-430) -/

/-- The journey fields the final sort reads (the full record also
carries company, stage, deal and contact data irrelevant to ordering). -/
structure Journey where
  company : String
  tenant_id : String
  first_touch : Option String
  cognito_signup : Option String
  deriving Repr, DecidableEq

/-- The sort key `j.get("first_touch") or j.get("cognito_signup") or "9999"`. -/
def sortKey (j : Journey) : String :=
  pyOrD j.first_touch (pyOrD j.cognito_signup "9999")

/-- `journeys.sort(key=...)`: stable ascending sort by the string key. -/
def sortJourneys (js : List Journey) : List Journey :=
  js.mergeSort (fun a b => decide (sortKey a ≤ sortKey b))

/-- A journey has some timestamp when either its first touch or its
local signup is a truthy string. -/
def hasAnyTs (j : Journey) : Bool :=
  pyTruthy j.first_touch || pyTruthy j.cognito_signup

/-! ## Date parsing (`format_date`, `days_between`)

Both helpers call `datetime.fromisoformat(s.replace("Z", "+00:00"))`
inside `try`/bare-`except`.  `fromisoformat` is modelled for ASCII
ISO-8601 strings `YYYY-MM-DD[<sep>HH[:MM[:SS[.fff|.ffffff]]][±HH:MM]]`
(the grammar CPython ≤3.10 accepts), with field validation; any other
shape fails, i.e. raises, i.e. yields `none` here.  A parsed value
keeps its civil fields plus the UTC offset when one was present. -/

structure PyDateTime where
  year : Nat
  month : Nat
  day : Nat
  hour : Nat
  minute : Nat
  second : Nat
  micro : Nat
  offMinutes : Option Int
  deriving Repr, DecidableEq

/-- Digit value of an ASCII digit. -/
def digitVal (c : Char) : Nat := c.toNat - 48

/-- Leap-year rule of the proleptic Gregorian calendar. -/
def isLeap (y : Nat) : Bool := y % 4 = 0 && (y % 100 ≠ 0 || y % 400 = 0)

/-- Days in a month (Python's `datetime` validation). -/
def daysInMonth (y m : Nat) : Nat :=
  if m = 2 then (if isLeap y then 29 else 28)
  else if m = 4 ∨ m = 6 ∨ m = 9 ∨ m = 11 then 30
  else 31

/-- Days from 1970-01-01 to the given civil date (standard
days-from-civil computation; any correct day count matches Python's
`toordinal`-based arithmetic up to a constant that cancels in
differences). -/
def daysFromCivil (y m d : Nat) : Int :=
  let yi : Int := (y : Int) - (if m ≤ 2 then 1 else 0)
  let era : Int := yi.fdiv 400
  let yoe : Int := yi - era * 400
  let mp : Int := ((m : Int) + 9) % 12
  let doy : Int := (153 * mp + 2).fdiv 5 + (d : Int) - 1
  let doe : Int := yoe * 365 + yoe.fdiv 4 - yoe.fdiv 100 + doy
  era * 146097 + doe - 719468

/-- A UTC-offset suffix `±HH:MM` (or nothing). -/
def parseOff : List Char → Option (Option Int)
  | [] => some none
  | '+' :: h1 :: h2 :: ':' :: m1 :: m2 :: [] =>
    if h1.isDigit && h2.isDigit && m1.isDigit && m2.isDigit then
      let h := digitVal h1 * 10 + digitVal h2
      let m := digitVal m1 * 10 + digitVal m2
      if h < 24 ∧ m < 60 then some (some ((h * 60 + m : Nat) : Int)) else none
    else none
  | '-' :: h1 :: h2 :: ':' :: m1 :: m2 :: [] =>
    if h1.isDigit && h2.isDigit && m1.isDigit && m2.isDigit then
      let h := digitVal h1 * 10 + digitVal h2
      let m := digitVal m1 * 10 + digitVal m2
      if h < 24 ∧ m < 60 then some (some (-((h * 60 + m : Nat) : Int))) else none
    else none
  | _ => none

/-- A fractional-seconds suffix (exactly 3 or 6 digits in CPython
≤3.10) followed by an optional offset; returns microseconds. -/
def parseFracOff : List Char → Option (Nat × Option Int)
  | f1 :: f2 :: f3 :: f4 :: f5 :: f6 :: rest =>
    if f1.isDigit && f2.isDigit && f3.isDigit && f4.isDigit && f5.isDigit && f6.isDigit then
      (parseOff rest).map (fun off =>
        (digitVal f1 * 100000 + digitVal f2 * 10000 + digitVal f3 * 1000 +
          digitVal f4 * 100 + digitVal f5 * 10 + digitVal f6, off))
    else
      if f1.isDigit && f2.isDigit && f3.isDigit then
        (parseOff (f4 :: f5 :: f6 :: rest)).map (fun off =>
          ((digitVal f1 * 100 + digitVal f2 * 10 + digitVal f3) * 1000, off))
      else none
  | f1 :: f2 :: f3 :: rest =>
    if f1.isDigit && f2.isDigit && f3.isDigit then
      (parseOff rest).map (fun off =>
        ((digitVal f1 * 100 + digitVal f2 * 10 + digitVal f3) * 1000, off))
    else none
  | _ => none

/-- The seconds part and what follows it. -/
def parseSecTail : List Char → Option (Nat × Nat × Option Int)
  | ':' :: s1 :: s2 :: rest =>
    if s1.isDigit && s2.isDigit then
      let s := digitVal s1 * 10 + digitVal s2
      if s < 60 then
        match rest with
        | '.' :: rest' => (parseFracOff rest').map (fun fo => (s, fo.1, fo.2))
        | _ => (parseOff rest).map (fun off => (s, 0, off))
      else none
    else none
  | rest => (parseOff rest).map (fun off => (0, 0, off))

/-- The time-of-day part `HH[:MM[:SS[.f*]]][±HH:MM]`. -/
def parseTimePart : List Char → Option (Nat × Nat × Nat × Nat × Option Int)
  | h1 :: h2 :: rest =>
    if h1.isDigit && h2.isDigit then
      let h := digitVal h1 * 10 + digitVal h2
      if h < 24 then
        match rest with
        | ':' :: m1 :: m2 :: rest' =>
          if m1.isDigit && m2.isDigit then
            let mi := digitVal m1 * 10 + digitVal m2
            if mi < 60 then
              (parseSecTail rest').map (fun smo => (h, mi, smo.1, smo.2.1, smo.2.2))
            else none
          else none
        | [] => some (h, 0, 0, 0, none)
        | _ => none
      else none
    else none
  | _ => none

/-- `datetime.fromisoformat` on characters: `YYYY-MM-DD`, optionally a
single separator character and a time part. -/
def fromIso : List Char → Option PyDateTime
  | y1 :: y2 :: y3 :: y4 :: '-' :: mo1 :: mo2 :: '-' :: d1 :: d2 :: rest =>
    if y1.isDigit && y2.isDigit && y3.isDigit && y4.isDigit &&
        mo1.isDigit && mo2.isDigit && d1.isDigit && d2.isDigit then
      let y := digitVal y1 * 1000 + digitVal y2 * 100 + digitVal y3 * 10 + digitVal y4
      let mo := digitVal mo1 * 10 + digitVal mo2
      let d := digitVal d1 * 10 + digitVal d2
      if 1 ≤ y ∧ 1 ≤ mo ∧ mo ≤ 12 ∧ 1 ≤ d ∧ d ≤ daysInMonth y mo then
        match rest with
        | [] => some ⟨y, mo, d, 0, 0, 0, 0, none⟩
        | _ :: t =>
          (parseTimePart t).map (fun p => ⟨y, mo, d, p.1, p.2.1, p.2.2.1, p.2.2.2.1, p.2.2.2.2⟩)
      else none
    else none
  | _ => none

/-- `s.replace("Z", "+00:00")` for the single-character pattern `"Z"`:
every occurrence is replaced. -/
def replaceZ (l : List Char) : List Char :=
  l.flatMap (fun c => if c = 'Z' then ['+', '0', '0', ':', '0', '0'] else [c])

/-- The datetime's absolute position in microseconds (UTC microseconds
for aware values, naive microseconds otherwise); differences of two
same-awareness values match Python `datetime` subtraction. -/
def toMicros (t : PyDateTime) : Int :=
  (daysFromCivil t.year t.month t.day * 86400 +
    (t.hour * 3600 + t.minute * 60 + t.second : Nat) -
    (t.offMinutes.getD 0) * 60) * 1000000 + (t.micro : Nat)

/-- Whether the parsed value is timezone-aware. -/
def isAware (t : PyDateTime) : Bool := t.offMinutes.isSome

/-- The parse both date helpers perform. -/
def parseDate (s : String) : Option PyDateTime := fromIso (replaceZ s.toList)

/-- `days_between(d1, d2)`: parse both strings; subtract (which raises,
i.e. yields `none`, when one side is aware and the other naive — the
bare `except` also catches that `TypeError`); `timedelta.days` floors
the difference, and `abs` is applied last. -/
def days_between (d1 d2 : String) : Option Nat :=
  match parseDate d1, parseDate d2 with
  | some a, some b =>
    if isAware a = isAware b then
      some (((toMicros b - toMicros a).fdiv 86400000000).natAbs)
    else none
  | _, _ => none

/-- Month abbreviations of `strftime("%b ...")` (C locale). -/
def monthAbbr : List String :=
  ["Jan", "Feb", "Mar", "Apr", "May", "Jun",
   "Jul", "Aug", "Sep", "Oct", "Nov", "Dec"]

/-- Zero-padded two-digit field. -/
def pad2 (n : Nat) : String :=
  if n < 10 then "0" ++ toString n else toString n

/-- `dt.strftime("%b %d, %Y")`. -/
def strftimeBD (t : PyDateTime) : String :=
  (monthAbbr.getD (t.month - 1) "") ++ " " ++ pad2 t.day ++ ", " ++ toString t.year

/-- `format_date`: sentinel passthrough for falsy or `"N/A"` input;
otherwise parse and pretty-print, falling back on parse failure to the
first 10 characters (or the whole string when shorter). -/
def format_date (iso_str : String) : String :=
  if iso_str = "" ∨ iso_str = "N/A" then "N/A"
  else
    match parseDate iso_str with
    | some dt => strftimeBD dt
    | none => if 10 ≤ iso_str.length then String.mk (iso_str.toList.take 10) else iso_str

/-! ## Supporting lemmas -/

lemma ruleInternalDomain_eq (em : String) :
    ruleInternalDomain em = (em.endsWith "@arda.cards" || em.endsWith "@arda.com") := by
  have h1 : ("@" ++ "arda.cards" : String) = "@arda.cards" := rfl
  have h2 : ("@" ++ "arda.com" : String) = "@arda.com" := rfl
  simp [ruleInternalDomain, internalDomains, h1, h2]

lemma findFirst_eq_find? (p : Deal → Bool) (l : List Deal) :
    findFirst p l = l.find? p := by
  induction l with
  | nil => rfl
  | cons d ds ih => cases h : p d <;> simp [findFirst, List.find?_cons, h, ih]

lemma lifecycleOf_eq_find? (cs : List Contact) :
    lifecycleOf cs =
      match cs.find? (fun c => pyTruthy c.lifecyclestage) with
      | some c => c.lifecyclestage.getD ""
      | none => "Unknown" := by
  induction cs with
  | nil => rfl
  | cons c cs ih =>
    cases hlc : c.lifecyclestage with
    | none => simpa [lifecycleOf, List.find?_cons, pyTruthy, hlc] using ih
    | some s =>
      by_cases hs : s = "" <;>
        simp_all [lifecycleOf, List.find?_cons, pyTruthy, hlc]

lemma lastTruthy_eq_reverse_find? (f : Contact → Option String) (cs : List Contact) :
    lastTruthy f cs = (cs.reverse.find? (fun c => pyTruthy (f c))).bind f := by
  induction cs using List.reverseRecOn with
  | nil => rfl
  | append_singleton cs a ih =>
    cases h : pyTruthy (f a) <;>
      simp [lastTruthy, List.foldl_append, List.find?_cons, h, ← ih, lastTruthy]

/-! ### Matching-fold lemmas -/

/-- The words-then-guard spec reading of the keyword fallback: for each
longer-than-3-character word of the company name, the bucket's
candidates that pass the relevance guard, all deduplicated by id. -/
def specFallback (idx : Idx) (cnl : List Char) : List Deal :=
  dedupById (((wordsOf cnl).filter (fun w => decide (w.length > 3))).flatMap
    (fun w => (idx w).filter (relevanceGuard cnl)))

/-- The exact-key spec reading: all deals under the full key,
deduplicated by id. -/
def specExact (idx : Idx) (cnl : List Char) : List Deal :=
  dedupById (idx cnl)

lemma dedupById_nil : dedupById [] = [] := by
  simp [dedupById]

lemma dedupById_cons (d : Deal) (ds : List Deal) :
    dedupById (d :: ds) = d :: dedupById (ds.filter (fun d' => d'.id ≠ d.id)) := by
  rw [dedupById]

lemma foldl_addUnseen_snd (l : List Deal) : ∀ (seen : List String) (out : List Deal),
    (l.foldl addUnseen (seen, out)).2 =
      out ++ dedupById (l.filter (fun d => decide (d.id ∉ seen))) := by
  induction l with
  | nil => intro seen out; simp [dedupById]
  | cons d ds ih =>
    intro seen out
    by_cases h : d.id ∈ seen
    · have hstep : addUnseen (seen, out) d = (seen, out) := by simp [addUnseen, h]
      rw [List.foldl_cons, hstep, ih, List.filter_cons_of_neg (by simp [h])]
    · have hstep : addUnseen (seen, out) d = (d.id :: seen, out ++ [d]) := by
        simp [addUnseen, h]
      rw [List.foldl_cons, hstep, ih, List.filter_cons_of_pos (by simp [h]),
        dedupById_cons, List.filter_filter, List.append_assoc, List.singleton_append]
      congr 3
      exact List.filter_congr (fun x _ => by
        by_cases h1 : x.id = d.id <;> by_cases h2 : x.id ∈ seen <;> simp [h1, h2])

lemma dedupById_props : ∀ (n : Nat) (l : List Deal), l.length ≤ n →
    (∀ x ∈ dedupById l, x ∈ l) ∧ ((dedupById l).map Deal.id).Nodup := by
  intro n
  induction n with
  | zero =>
    intro l hl
    have : l = [] := List.length_eq_zero.mp (Nat.le_zero.mp hl)
    subst this
    simp [dedupById]
  | succ n ih =>
    intro l hl
    match l with
    | [] => simp [dedupById]
    | d :: ds =>
      have hlen : (ds.filter (fun d' => d'.id ≠ d.id)).length ≤ n :=
        le_trans (List.length_filter_le _ _) (Nat.succ_le_succ_iff.mp hl)
      obtain ⟨hmem, hnd⟩ := ih _ hlen
      constructor
      · intro x hx
        rw [dedupById_cons] at hx
        rcases List.mem_cons.mp hx with h | h
        · exact h ▸ List.mem_cons_self d ds
        · exact List.mem_cons_of_mem _ (List.mem_filter.mp (hmem x h)).1
      · rw [dedupById_cons]
        simp only [List.map_cons, List.nodup_cons]
        refine ⟨?_, hnd⟩
        intro hc
        obtain ⟨y, hy, hyid⟩ := List.mem_map.mp hc
        have hmf := (List.mem_filter.mp (hmem y hy)).2
        simp only [decide_eq_true_eq] at hmf
        exact hmf hyid

lemma mem_of_mem_dedupById {l : List Deal} {x : Deal} (h : x ∈ dedupById l) : x ∈ l :=
  (dedupById_props l.length l le_rfl).1 x h

lemma dedupById_nodup (l : List Deal) : ((dedupById l).map Deal.id).Nodup :=
  (dedupById_props l.length l le_rfl).2

lemma foldl_guard_filter (cnl : List Char) (l : List Deal) : ∀ (st : MatchSt),
    l.foldl (fun s d => if relevanceGuard cnl d then addUnseen s d else s) st =
      (l.filter (relevanceGuard cnl)).foldl addUnseen st := by
  induction l with
  | nil => intro st; rfl
  | cons d ds ih =>
    intro st
    cases hg : relevanceGuard cnl d <;>
      simp [List.filter_cons, hg, ih]

lemma foldl_fallbackStep (idx : Idx) (cnl : List Char) : ∀ (ws : List (List Char)) (st : MatchSt),
    ws.foldl (fallbackStep idx cnl) st =
      (ws.flatMap (fun w =>
        if w.length > 3 then (idx w).filter (relevanceGuard cnl) else [])).foldl
        addUnseen st := by
  intro ws
  induction ws with
  | nil => intro st; rfl
  | cons w ws ih =>
    intro st
    rw [List.foldl_cons, List.flatMap_cons, List.foldl_append]
    by_cases hlen : w.length > 3
    · by_cases hb : idx w = []
      · have : fallbackStep idx cnl st w = st := by
          simp [fallbackStep, hb]
        rw [this, ih, if_pos hlen, hb]
        simp
      · have : fallbackStep idx cnl st w =
            ((idx w).filter (relevanceGuard cnl)).foldl addUnseen st := by
          simp [fallbackStep, hlen, hb, foldl_guard_filter]
        rw [this, ih, if_pos hlen]
    · have : fallbackStep idx cnl st w = st := by
        simp [fallbackStep, hlen]
      rw [this, ih, if_neg hlen]
      simp

lemma filter_flatMap_gt3 (f : List Char → List Deal) : ∀ (ws : List (List Char)),
    (ws.filter (fun w => decide (w.length > 3))).flatMap f =
      ws.flatMap (fun w => if w.length > 3 then f w else []) := by
  intro ws
  induction ws with
  | nil => rfl
  | cons w ws ih =>
    by_cases hlen : w.length > 3 <;>
      simp [List.filter_cons, hlen, List.flatMap_cons, ih]

lemma fallbackDeals_eq (idx : Idx) (cnl : List Char) :
    fallbackDeals idx cnl = specFallback idx cnl := by
  unfold fallbackDeals specFallback
  rw [foldl_fallbackStep, foldl_addUnseen_snd, filter_flatMap_gt3]
  simp

/-- Master shape of the two-stage matcher: exact bucket (deduplicated)
when the lower-cased name is a key, otherwise the guarded keyword
fallback; the fallback runs exactly when the exact bucket is empty. -/
lemma matchingDeals_eq (idx : Idx) (cnl : List Char) :
    matchingDeals idx cnl =
      if idx cnl = [] then specFallback idx cnl else specExact idx cnl := by
  have h1 : ((idx cnl).foldl addUnseen (([], []) : MatchSt)).2 = dedupById (idx cnl) := by
    rw [foldl_addUnseen_snd]
    simp
  by_cases hb : idx cnl = []
  · have hfold : (idx cnl).foldl addUnseen (([], []) : MatchSt) = ([], []) := by
      rw [hb]
      rfl
    rw [if_pos hb]
    simp only [matchingDeals, hfold, List.isEmpty_nil, if_true]
    have h := fallbackDeals_eq idx cnl
    unfold fallbackDeals at h
    exact h
  · have hne : ¬(((idx cnl).foldl addUnseen (([], []) : MatchSt)).2.isEmpty = true) := by
      obtain ⟨d, ds, hds⟩ : ∃ d ds, idx cnl = d :: ds := by
        cases hc : idx cnl with
        | nil => exact absurd hc hb
        | cons d ds => exact ⟨d, ds, rfl⟩
      rw [h1, hds, dedupById_cons]
      simp
    rw [if_neg hb]
    simp only [matchingDeals, if_neg hne]
    unfold specExact
    exact h1

/-! ### Deal-index bucket invariant (keys are substrings of the deal name) -/

lemma infix_take (n : Nat) (l : List Char) : l.take n <:+: l :=
  ⟨[], l.drop n, by simp⟩

lemma infix_trimChars (l : List Char) : trimChars l <:+: l := by
  have h1 : List.takeWhile Char.isWhitespace l ++ List.dropWhile Char.isWhitespace l = l :=
    List.takeWhile_append_dropWhile _ _
  have h2 : List.takeWhile Char.isWhitespace (List.dropWhile Char.isWhitespace l).reverse ++
      List.dropWhile Char.isWhitespace (List.dropWhile Char.isWhitespace l).reverse =
      (List.dropWhile Char.isWhitespace l).reverse :=
    List.takeWhile_append_dropWhile _ _
  have h3 := congrArg List.reverse h2
  rw [List.reverse_append, List.reverse_reverse] at h3
  unfold trimChars
  refine ⟨List.takeWhile Char.isWhitespace l,
    (List.takeWhile Char.isWhitespace (List.dropWhile Char.isWhitespace l).reverse).reverse, ?_⟩
  rw [List.append_assoc, h3, h1]

lemma infix_lowerChars {l₁ l₂ : List Char} (h : l₁ <:+: l₂) :
    lowerChars l₁ <:+: lowerChars l₂ := by
  obtain ⟨s, t, rfl⟩ := h
  exact ⟨lowerChars s, lowerChars t, by simp [lowerChars]⟩

lemma companyPart_substr (dn : List Char) : companyPart dn <:+: lowerChars dn := by
  unfold companyPart
  cases h : (sepOccs dn).getLast? with
  | none => exact List.infix_refl _
  | some i =>
    exact infix_lowerChars ((infix_trimChars _).trans (infix_take i dn))

lemma words_substr : ∀ (l cur : List Char) (w : List Char),
    w ∈ splitWsAux cur l → w <:+: (cur.reverse ++ l) := by
  intro l
  induction l with
  | nil =>
    intro cur w hw
    by_cases hc : cur.isEmpty <;> simp [splitWsAux, hc] at hw
    subst hw
    exact ⟨[], [], by simp⟩
  | cons c cs ih =>
    intro cur w hw
    by_cases hws : c.isWhitespace
    · by_cases hc : cur.isEmpty
      · simp only [splitWsAux, hws, hc, if_true] at hw
        exact (ih [] w (by simpa using hw)).trans ⟨cur.reverse ++ [c], [], by simp⟩
      · simp only [splitWsAux, hws, hc, if_true, if_false] at hw
        rcases List.mem_cons.mp hw with h | h
        · exact h ▸ ⟨[], c :: cs, by simp⟩
        · exact (ih [] w (by simpa using h)).trans ⟨cur.reverse ++ [c], [], by simp⟩
    · simp only [splitWsAux, hws, if_false] at hw
      have := ih (c :: cur) w hw
      simpa [List.append_assoc] using this

lemma wordsOf_substr {l w : List Char} (hw : w ∈ wordsOf l) : w <:+: l := by
  simpa using words_substr l [] w hw

lemma mem_idxPush {idx : Idx} {k0 : List Char} {d0 : Deal} {k : List Char} {d : Deal}
    (h : d ∈ idxPush idx k0 d0 k) : d ∈ idx k ∨ (k = k0 ∧ d = d0) := by
  unfold idxPush at h
  by_cases hk : k = k0
  · rw [if_pos hk] at h
    rcases List.mem_append.mp h with h' | h'
    · exact Or.inl h'
    · exact Or.inr ⟨hk, by simpa using h'⟩
  · rw [if_neg hk] at h
    exact Or.inl h

lemma mem_wordsFold {d0 : Deal} {k : List Char} {d : Deal} :
    ∀ (ws : List (List Char)) (idx : Idx),
    d ∈ (ws.foldl (fun ix w => if w.length > 3 then idxPush ix w d0 else ix) idx) k →
      d ∈ idx k ∨ (k ∈ ws ∧ k.length > 3 ∧ d = d0) := by
  intro ws
  induction ws with
  | nil => intro idx h; exact Or.inl h
  | cons w ws ih =>
    intro idx h
    rw [List.foldl_cons] at h
    by_cases hlen : w.length > 3
    · rw [if_pos hlen] at h
      rcases ih _ h with h' | h'
      · rcases mem_idxPush h' with h'' | ⟨hk, hd⟩
        · exact Or.inl h''
        · exact Or.inr ⟨by simp [hk], hk ▸ hlen, hd⟩
      · exact Or.inr ⟨List.mem_cons_of_mem _ h'.1, h'.2.1, h'.2.2⟩
    · rw [if_neg hlen] at h
      rcases ih _ h with h' | h'
      · exact Or.inl h'
      · exact Or.inr ⟨List.mem_cons_of_mem _ h'.1, h'.2.1, h'.2.2⟩

lemma key_substr_of_indexStep {idx : Idx} {d0 : Deal} {k : List Char} {d : Deal}
    (h : d ∈ indexStep idx d0 k) :
    d ∈ idx k ∨ (k <:+: dealNameLower d0 ∧ d = d0) := by
  unfold indexStep at h
  have hcp : companyPart (dealNameStripped d0) <:+: dealNameLower d0 := by
    have h1 := companyPart_substr (dealNameStripped d0)
    have h2 : lowerChars (dealNameStripped d0) <:+: dealNameLower d0 :=
      infix_lowerChars (infix_trimChars _)
    exact h1.trans h2
  rcases mem_wordsFold _ _ h with h' | ⟨hkw, _, hd⟩
  · rcases mem_idxPush h' with h'' | ⟨hk, hd⟩
    · exact Or.inl h''
    · exact Or.inr ⟨hk ▸ hcp, hd⟩
  · exact Or.inr ⟨(wordsOf_substr hkw).trans hcp, hd⟩

lemma buildIndex_key_substr_aux : ∀ (deals : List Deal) (idx0 : Idx),
    (∀ k d, d ∈ idx0 k → k <:+: dealNameLower d) →
    ∀ k d, d ∈ (deals.foldl indexStep idx0) k → k <:+: dealNameLower d := by
  intro deals
  induction deals with
  | nil => intro idx0 h0 k d h; exact h0 k d h
  | cons d0 ds ih =>
    intro idx0 h0 k d h
    rw [List.foldl_cons] at h
    refine ih _ ?_ k d h
    intro k' d' h'
    rcases key_substr_of_indexStep h' with h'' | ⟨hk, hd⟩
    · exact h0 k' d' h''
    · exact hd ▸ hk

/-- Every deal sitting in the bucket of key `k` has `k` as a substring
of its lower-cased name. -/
lemma buildIndex_key_substr {deals : List Deal} {k : List Char} {d : Deal}
    (h : d ∈ buildIndex deals k) : k <:+: dealNameLower d :=
  buildIndex_key_substr_aux deals _ (fun _ _ h' => absurd h' (List.not_mem_nil _)) k d h

/-- In the keyword fallback, the key a candidate was retrieved under
already witnesses the relevance guard. -/
lemma relevanceGuard_of_bucket {deals : List Deal} {cnl w : List Char} {d : Deal}
    (hw : w ∈ wordsOf cnl) (hlen : w.length > 3) (hd : d ∈ buildIndex deals w) :
    relevanceGuard cnl d = true := by
  unfold relevanceGuard
  refine Bool.or_eq_true_iff.mpr (Or.inr ?_)
  rw [List.any_eq_true]
  refine ⟨w, hw, ?_⟩
  rw [Bool.and_eq_true]
  exact ⟨decide_eq_true hlen, decide_eq_true (buildIndex_key_substr hd)⟩

/-! ## Claims -/

/-- C1: the spec requires a missing `HUBSPOT_API_TOKEN` to be a fatal
precondition failure before any network call.  The code instead
defaults the token to `""` and `hubspot_get` unconditionally constructs
and sends the request: with an empty environment the issued request
carries the unauthenticated header `Bearer ` (with empty credential),
and no failure happens first — the code contradicts the spec's stated
intent (a code bug relative to the claim). -/
theorem missing_token_still_sends_request :
    apiToken (fun _ => none) = "" ∧
      (hubspotGetRequest "/crm/v3/objects/deals" [("limit", "100")]
          (apiToken (fun _ => none))).authHeader = "Bearer " :=
  ⟨rfl, rfl⟩

/-- C3: a roster row is excluded iff its (stripped) email matches one
of the three filter rules — the exact internal-domain suffix, the
conservative two-condition `test`-account rule (whose local part exists
only when the address contains `@`), or the internal alias marker.  The
code's extra `"@" in email` check coincides with the local part being
defined, and the code's two `test` conditions are the claim's two
conjuncts, so the sets coincide on every string. -/
theorem roster_row_excluded_iff (raw : String) :
    excludedRow raw =
      (ruleInternalDomain raw.trim || ruleTestAccount raw.trim ||
        ruleInternalAlias raw.trim) := by
  rw [ruleInternalDomain_eq]
  simp only [excludedRow, ruleTestAccount, localPart, ruleInternalAlias]
  cases hd1 : raw.trim.endsWith "@arda.cards" <;>
    cases hd2 : raw.trim.endsWith "@arda.com" <;>
      cases hct : strContains raw.trim.toLower "test" <;>
        cases hat : strContains raw.trim "@" <;>
          cases hst : (beforeAt raw.trim).toLower.startsWith "test" <;>
            cases hr3 : raw.trim.startsWith "customer-success+" <;>
              simp [hd1, hd2, hct, hat, hst, hr3]

/-- C2: best-deal selection on a non-empty matched-deal sequence picks
the first `"Closed Won"` deal if any, else the first deal whose mapped
stage is outside `{"Unlikely", "Churn", "Closed Lost"}`, else the first
deal; a deal is always selected, it comes from the sequence, and the
choice is a pure function of the sequence and the stage map. -/
theorem best_deal_selection (ds : List Deal) (h : ds ≠ []) :
    bestDeal ds = specBestDeal ds ∧ (bestDeal ds).isSome ∧
      ∀ d, bestDeal ds = some d → d ∈ ds := by
  obtain ⟨a, l, rfl⟩ : ∃ a l, ds = a :: l := by
    cases ds with
    | nil => exact absurd rfl h
    | cons a l => exact ⟨a, l, rfl⟩
  simp only [bestDeal, specBestDeal, findFirst_eq_find?, List.isEmpty_cons]
  refine ⟨rfl, ?_, ?_⟩
  · cases hcw : (a :: l).find? (fun d => stageLabel d == "Closed Won") with
    | some d => simp
    | none =>
      cases hnl : (a :: l).find? (fun d => !(losingStages.contains (stageLabel d))) with
      | some d => simp [hnl]
      | none => simp [hnl]
  · intro d hd
    cases hcw : (a :: l).find? (fun d => stageLabel d == "Closed Won") with
    | some d' =>
      rw [hcw] at hd
      cases hd
      exact List.mem_of_find?_eq_some hcw
    | none =>
      rw [hcw] at hd
      cases hnl : (a :: l).find? (fun d => !(losingStages.contains (stageLabel d))) with
      | some d' =>
        rw [hnl] at hd
        simp at hd
        subst hd
        exact List.mem_of_find?_eq_some hnl
      | none =>
        rw [hnl] at hd
        simp at hd
        subst hd
        exact List.mem_cons_self a l

/-- Sample deals for the C2 witness: a losing-stage deal first, a
`"Closed Won"` deal second. -/
def wDealLost : Deal := ⟨"d1", some "Acme - Old", some "closedlost"⟩

def wDealWon : Deal := ⟨"d2", some "Acme - New", some "closedwon"⟩

/-- C2 witness: on `[wDealLost, wDealWon]` the hypothesis holds and the
theorem applies; the `"Closed Won"` deal is selected over the earlier
losing deal. -/
theorem best_deal_selection_witness :
    ([wDealLost, wDealWon] : List Deal) ≠ [] ∧
      (bestDeal [wDealLost, wDealWon] = specBestDeal [wDealLost, wDealWon] ∧
        (bestDeal [wDealLost, wDealWon]).isSome ∧
        ∀ d, bestDeal [wDealLost, wDealWon] = some d → d ∈ [wDealLost, wDealWon]) ∧
      bestDeal [wDealLost, wDealWon] = some wDealWon :=
  ⟨by decide, best_deal_selection [wDealLost, wDealWon] (by decide), by decide⟩

/-- C8: the lifecycle stage is the first truthy `lifecyclestage` in
contact iteration order (found by `find?`), while each lifecycle
transition date is the last truthy value of its field (the first in
reverse iteration order) — the two merge policies differ. -/
theorem lifecycle_merge_policies (cs : List Contact) :
    ((∃ c ∈ cs, pyTruthy c.lifecyclestage) →
      ∃ c, cs.find? (fun c => pyTruthy c.lifecyclestage) = some c ∧
        lifecycleOf cs = c.lifecyclestage.getD "") ∧
    lastTruthy (fun c => c.lead_date) cs =
      (cs.reverse.find? (fun c => pyTruthy c.lead_date)).bind (fun c => c.lead_date) ∧
    lastTruthy (fun c => c.opportunity_date) cs =
      (cs.reverse.find? (fun c => pyTruthy c.opportunity_date)).bind
        (fun c => c.opportunity_date) ∧
    lastTruthy (fun c => c.customer_date) cs =
      (cs.reverse.find? (fun c => pyTruthy c.customer_date)).bind
        (fun c => c.customer_date) := by
  refine ⟨?_, lastTruthy_eq_reverse_find? _ cs, lastTruthy_eq_reverse_find? _ cs,
    lastTruthy_eq_reverse_find? _ cs⟩
  intro hex
  have hsome : (cs.find? (fun c => pyTruthy c.lifecyclestage)).isSome := by
    rw [List.find?_isSome]
    obtain ⟨c, hc, hp⟩ := hex
    exact ⟨c, hc, hp⟩
  obtain ⟨c, hc⟩ := Option.isSome_iff_exists.mp hsome
  exact ⟨c, hc, by rw [lifecycleOf_eq_find?, hc]⟩

/-- Sample contacts for the C8 witness: both carry truthy lifecycle
stages and lead dates; the merged stage comes from the first contact,
the merged lead date from the second. -/
def wContact1 : Contact := ⟨some "lead", some "2024-01-01", none, none⟩

def wContact2 : Contact := ⟨some "customer", some "2024-02-02", none, none⟩

/-- C8 witness: the theorem applied to `[wContact1, wContact2]`, whose
existence hypothesis holds; the two policies visibly differ there
(stage from the first contact, date from the last). -/
theorem lifecycle_merge_policies_witness :
    (∃ c ∈ ([wContact1, wContact2] : List Contact), pyTruthy c.lifecyclestage) ∧
      (∃ c, ([wContact1, wContact2] : List Contact).find?
            (fun c => pyTruthy c.lifecyclestage) = some c ∧
          lifecycleOf [wContact1, wContact2] = c.lifecyclestage.getD "") ∧
      lifecycleOf [wContact1, wContact2] = "lead" ∧
      lastTruthy (fun c => c.lead_date) [wContact1, wContact2] = some "2024-02-02" :=
  ⟨by decide, (lifecycle_merge_policies [wContact1, wContact2]).1 (by decide),
    by decide, by decide⟩

/-- C4 counterexample data: two deals sharing the over-long word
`acme`, and a company name with a trailing space. -/
def cxDeal1 : Deal := ⟨"1", some "Acme Corp - X", none⟩

def cxDeal2 : Deal := ⟨"2", some "Acme Inc - Y", none⟩

def cxDeals : List Deal := [cxDeal1, cxDeal2]

/-- The C4 counterexample company name (trailing space). -/
def cxName : String := "Acme Corp "

/-- C4 counterexample: the claim says the match key is the lower-cased
AND trimmed company name.  The code only lower-cases (`cn_lower =
(company_name or "").lower()`, line 287).  For `"Acme Corp "` the
trimmed key `"acme corp"` is a full index key whose deduplicated bucket
is `[cxDeal1]`, so the claim predicts `[cxDeal1]` with the fallback
skipped; the code instead misses the exact key and falls back by
keyword, also picking up `cxDeal2` via the shared word `acme`. -/
theorem matching_trim_counterexample :
    buildIndex cxDeals (trimChars (lowerChars cxName.toList)) ≠ [] ∧
      dedupById (buildIndex cxDeals (trimChars (lowerChars cxName.toList))) = [cxDeal1] ∧
      matchingDeals (buildIndex cxDeals) (lowerChars cxName.toList) = [cxDeal1, cxDeal2] := by
  have hbucket : buildIndex cxDeals (trimChars (lowerChars cxName.toList)) = [cxDeal1] := by
    decide
  refine ⟨by rw [hbucket]; simp, ?_, by decide⟩
  rw [hbucket, dedupById_cons]
  simp [dedupById_nil]

/-- C4 (amended: the code normalizes the company name by lower-casing
only, without trimming): the matcher is two-stage — when the
lower-cased company name is a full index key, the result is that
bucket deduplicated by id and the keyword fallback is skipped;
otherwise the result is, per longer-than-3-character word that is an
index key, the bucket candidates passing the relevance guard,
deduplicated by id.  The empty result is possible (an empty fallback
union dedups to `[]`). -/
theorem matching_two_stage (deals : List Deal) (cn : List Char) :
    matchingDeals (buildIndex deals) (lowerChars cn) =
      if buildIndex deals (lowerChars cn) = []
      then specFallback (buildIndex deals) (lowerChars cn)
      else specExact (buildIndex deals) (lowerChars cn) :=
  matchingDeals_eq _ _

/-- C6: the matched-deal list a journey's `all_deals` is built from
never contains two deals with the same identifier — the `seen_ids`
guard of both matching passes deduplicates by deal id. -/
theorem all_deals_nodup_ids (idx : Idx) (cnl : List Char) :
    ((matchingDeals idx cnl).map Deal.id).Nodup := by
  rw [matchingDeals_eq]
  by_cases hb : idx cnl = []
  · rw [if_pos hb]
    exact dedupById_nodup _
  · rw [if_neg hb]
    exact dedupById_nodup _

/-- C10: on an index built by `buildIndex`, the keyword fallback's
relevance guard filters nothing: every candidate pulled from the
bucket of a longer-than-3-character word of the company name already
contains that word in its lower-cased deal name, so the fallback
result is exactly the deduplicated union of those buckets. -/
theorem fallback_guard_vacuous (deals : List Deal) (cnl : List Char) :
    fallbackDeals (buildIndex deals) cnl =
      dedupById (((wordsOf cnl).filter (fun w => decide (w.length > 3))).flatMap
        (fun w => buildIndex deals w)) := by
  rw [fallbackDeals_eq]
  unfold specFallback
  congr 1
  have hmap : ∀ w ∈ (wordsOf cnl).filter (fun w => decide (w.length > 3)),
      (buildIndex deals w).filter (relevanceGuard cnl) = buildIndex deals w := by
    intro w hw
    rw [List.mem_filter] at hw
    exact List.filter_eq_self.mpr (fun d hd =>
      relevanceGuard_of_bucket hw.1 (of_decide_eq_true hw.2) hd)
  calc ((wordsOf cnl).filter (fun w => decide (w.length > 3))).flatMap
        (fun w => (buildIndex deals w).filter (relevanceGuard cnl))
      = (((wordsOf cnl).filter (fun w => decide (w.length > 3))).map
          (fun w => (buildIndex deals w).filter (relevanceGuard cnl))).flatten := by
        rw [List.flatMap_def]
    _ = (((wordsOf cnl).filter (fun w => decide (w.length > 3))).map
          (fun w => buildIndex deals w)).flatten := by
        rw [List.map_congr_left hmap]
    _ = ((wordsOf cnl).filter (fun w => decide (w.length > 3))).flatMap
          (fun w => buildIndex deals w) := by
        rw [List.flatMap_def]

lemma sortKey_of_no_ts {j : Journey} (h : hasAnyTs j = false) : sortKey j = "9999" := by
  unfold hasAnyTs at h
  rw [Bool.or_eq_false_iff] at h
  obtain ⟨h1, h2⟩ := h
  unfold sortKey pyOrD
  cases hft : j.first_touch with
  | none =>
    cases hcs : j.cognito_signup with
    | none => rfl
    | some s =>
      rw [hcs] at h2
      simp only [pyTruthy, decide_eq_false_iff_not, not_not] at h2
      simp [h2]
  | some s =>
    rw [hft] at h1
    simp only [pyTruthy, decide_eq_false_iff_not, not_not] at h1
    cases hcs : j.cognito_signup with
    | none => simp [h1]
    | some t =>
      rw [hcs] at h2
      simp only [pyTruthy, decide_eq_false_iff_not, not_not] at h2
      simp [h1, h2]

/-- C7: the final journey sequence is a permutation of the input,
sorted ascending by the key "first touch, else local signup, else the
sentinel `"9999"`"; and provided every present timestamp precedes the
sentinel lexicographically (it is maximal), once a journey lacking both
timestamps appears, everything after it also lacks both — such
journeys sort last. -/
theorem journeys_sorted_by_key (js : List Journey) :
    (sortJourneys js).Perm js ∧
      (sortJourneys js).Pairwise (fun a b => sortKey a ≤ sortKey b) ∧
      ((∀ j ∈ js, hasAnyTs j = true → sortKey j < "9999") →
        (sortJourneys js).Pairwise
          (fun a b => hasAnyTs a = false → hasAnyTs b = false)) := by
  have htrans : ∀ a b c : Journey, decide (sortKey a ≤ sortKey b) = true →
      decide (sortKey b ≤ sortKey c) = true → decide (sortKey a ≤ sortKey c) = true :=
    fun _ _ _ hab hbc =>
      decide_eq_true (le_trans (of_decide_eq_true hab) (of_decide_eq_true hbc))
  have htotal : ∀ a b : Journey,
      (decide (sortKey a ≤ sortKey b) || decide (sortKey b ≤ sortKey a)) = true :=
    fun a b => by rcases le_total (sortKey a) (sortKey b) with h | h <;> simp [h]
  have hperm : (sortJourneys js).Perm js :=
    List.mergeSort_perm js (fun a b => decide (sortKey a ≤ sortKey b))
  have hsorted : (sortJourneys js).Pairwise
      (fun a b => decide (sortKey a ≤ sortKey b) = true) :=
    List.sorted_mergeSort htrans htotal js
  refine ⟨hperm, hsorted.imp (fun h => of_decide_eq_true h), ?_⟩
  intro hmax
  refine hsorted.imp_of_mem ?_
  intro a b ha hb hab hfa
  have hle : sortKey a ≤ sortKey b := of_decide_eq_true hab
  rw [sortKey_of_no_ts hfa] at hle
  cases hfb : hasAnyTs b with
  | false => rfl
  | true =>
    have hblt : sortKey b < "9999" := hmax b (hperm.mem_iff.mp hb) hfb
    exact absurd (lt_of_le_of_lt hle hblt) (lt_irrefl _)

/-- C7 witness journeys: one with a first touch, one with neither
timestamp. -/
def wJourneyTs : Journey := ⟨"Acme", "t1", some "2024-01-05T00:00:00Z", none⟩

def wJourneyNoTs : Journey := ⟨"Beta", "t2", none, none⟩

/-- C7 witness: the theorem applied at a concrete two-journey list
whose present timestamp precedes the sentinel. -/
theorem journeys_sorted_by_key_witness :
    (∀ j ∈ ([wJourneyNoTs, wJourneyTs] : List Journey),
        hasAnyTs j = true → sortKey j < "9999") ∧
      ((sortJourneys [wJourneyNoTs, wJourneyTs]).Perm [wJourneyNoTs, wJourneyTs] ∧
        (sortJourneys [wJourneyNoTs, wJourneyTs]).Pairwise
          (fun a b => sortKey a ≤ sortKey b)) ∧
      (sortJourneys [wJourneyNoTs, wJourneyTs]).Pairwise
        (fun a b => hasAnyTs a = false → hasAnyTs b = false) := by
  have hmax : ∀ j ∈ ([wJourneyNoTs, wJourneyTs] : List Journey),
      hasAnyTs j = true → sortKey j < "9999" := by
    intro j hj ht
    rcases List.mem_cons.mp hj with rfl | hj'
    · exact absurd ht (by decide)
    · rcases List.mem_cons.mp hj' with rfl | hj''
      · have hk : sortKey wJourneyTs = "2024-01-05T00:00:00Z" := rfl
        rw [hk]
        exact String.lt_iff_toList_lt.mpr (by decide)
      · exact absurd hj'' (List.not_mem_nil j)
  exact ⟨hmax, ⟨(journeys_sorted_by_key [wJourneyNoTs, wJourneyTs]).1,
      (journeys_sorted_by_key [wJourneyNoTs, wJourneyTs]).2.1⟩,
    (journeys_sorted_by_key [wJourneyNoTs, wJourneyTs]).2.2 hmax⟩

/-- C5 counterexample: `timedelta.days` floors the signed difference
before `abs` is applied, so a one-second gap gives 0 one way and 1 the
other — `days_between` is not symmetric; and on an unparseable input
`days_between(a, a)` is the `None` sentinel, not zero. -/
theorem days_between_asymmetry_counterexample :
    days_between "2024-01-01T00:00:00" "2024-01-01T00:00:01" = some 0 ∧
      days_between "2024-01-01T00:00:01" "2024-01-01T00:00:00" = some 1 ∧
      days_between "N/A" "N/A" = none :=
  ⟨by decide, by decide, by decide⟩

/-- C5 (amended): `days_between(a, b) = days_between(b, a)` holds
whenever both sides parse (with matching awareness) and the difference
is a whole number of days, and `days_between(a, a) = 0` holds whenever
`a` parses; in general the two orders can differ by one because the
floor of `timedelta.days` precedes `abs`. -/
theorem days_between_symmetry_amended :
    (∀ a b x y, parseDate a = some x → parseDate b = some y →
        isAware x = isAware y →
        (86400000000 : Int) ∣ (toMicros y - toMicros x) →
        days_between a b = days_between b a) ∧
    (∀ a x, parseDate a = some x → days_between a a = some 0) := by
  constructor
  · intro a b x y hx hy haw hdvd
    unfold days_between
    rw [hx, hy]
    dsimp only
    rw [if_pos haw, if_pos haw.symm]
    obtain ⟨k, hk⟩ := hdvd
    have hk2 : toMicros x - toMicros y = (86400000000 : Int) * (-k) := by
      rw [← neg_sub, hk]
      ring
    rw [hk, hk2, Int.mul_fdiv_cancel_left _ (by norm_num),
      Int.mul_fdiv_cancel_left _ (by norm_num)]
    simp
  · intro a x hx
    unfold days_between
    rw [hx]
    dsimp only
    rw [if_pos rfl]
    simp [Int.zero_fdiv]

/-- C5 witness data: two naive timestamps exactly two days apart. -/
def wIsoA : String := "2024-01-01T00:00:00"

def wIsoB : String := "2024-01-03T00:00:00"

def wDtA : PyDateTime := ⟨2024, 1, 1, 0, 0, 0, 0, none⟩

def wDtB : PyDateTime := ⟨2024, 1, 3, 0, 0, 0, 0, none⟩

/-- C5 witness: the amended symmetry and the reflexive-zero case at
concrete parseable inputs a whole number of days apart. -/
theorem days_between_symmetry_amended_witness :
    parseDate wIsoA = some wDtA ∧ parseDate wIsoB = some wDtB ∧
      days_between wIsoA wIsoB = days_between wIsoB wIsoA ∧
      days_between wIsoA wIsoA = some 0 :=
  ⟨by decide, by decide,
    days_between_symmetry_amended.1 wIsoA wIsoB wDtA wDtB (by decide) (by decide)
      rfl ⟨2, by decide⟩,
    days_between_symmetry_amended.2 wIsoA wDtA (by decide)⟩

/-- C9 counterexample: the empty string fails to parse, yet
`format_date` returns the fixed sentinel `"N/A"`, which is neither the
raw string nor its 10-character prefix (both are `""`). -/
theorem format_date_empty_counterexample :
    parseDate "" = none ∧ format_date "" = "N/A" ∧ format_date "" ≠ "" :=
  ⟨by decide, by decide, by decide⟩

/-- C9 (amended): both helpers are total functions; on a string that
fails to parse, `format_date` falls back to the raw string or its
10-character prefix — except that empty or literal-`"N/A"` input yields
the sentinel `"N/A"` — and `days_between` yields the `None` sentinel in
either argument position. -/
theorem date_fallbacks (s : String) (hp : parseDate s = none) :
    format_date s = (if s = "" ∨ s = "N/A" then "N/A"
      else if 10 ≤ s.length then String.mk (s.toList.take 10) else s) ∧
    ∀ t, days_between s t = none ∧ days_between t s = none := by
  constructor
  · unfold format_date
    by_cases h : s = "" ∨ s = "N/A"
    · rw [if_pos h, if_pos h]
    · rw [if_neg h, if_neg h, hp]
  · intro t
    cases hpt : parseDate t <;>
      constructor <;> simp [days_between, hp, hpt]

/-- C9 witness: a short unparseable string; parsing fails, the raw
string comes back, and `days_between` yields the sentinel. -/
theorem date_fallbacks_witness :
    parseDate "garbage" = none ∧
      (format_date "garbage" = (if ("garbage" : String) = "" ∨ ("garbage" : String) = "N/A"
          then "N/A"
          else if 10 ≤ ("garbage" : String).length
          then String.mk ("garbage".toList.take 10) else "garbage") ∧
        ∀ t, days_between "garbage" t = none ∧ days_between t "garbage" = none) :=
  ⟨by decide, date_fallbacks "garbage" (by decide)⟩

end OrderPulse
